import Mathlib

/-!
Shallow embedding of the Sivana audio-fingerprinting engine
(src/spectrogram.rs, src/peaks.rs, src/hashing.rs, src/database.rs).

Modelling conventions:
* `usize`/`u32`/`u64` values are `Nat`; `i64`/`isize` values are `Int`.
  Rust `saturating_sub` on unsigned integers is exactly `Nat` subtraction.
  All `u64` bit operations performed by the code stay far below `2^64`,
  so plain `Nat` arithmetic agrees with the machine arithmetic.
* `f32` magnitudes are modelled as `ℚ`: the code only compares magnitudes
  with `<`, `==`, `>=`, never does arithmetic on them.
* The numeric kernel of `create_spectrogram` (Hann windowing followed by the
  in-place FFT of the `window_size`-length buffer, and `Complex::norm`) is
  floating-point and is abstracted as the parameters `fftW` (chunk ↦
  transformed buffer) and `normF` (bin ↦ magnitude); the claims under study
  only concern the shape of the output and the purity/determinism of the
  kernel, which any Lean function has.
* SQLite state is modelled explicitly (`DbState`); SQL statements are assumed
  to execute without I/O errors, so the `Err` fallback of the upsert in
  `enroll_song` (database.rs lines 96-114) is unreachable in the model.
  `last_insert_rowid` is connection state updated only by successful INSERTs.
* Rust `HashMap` iteration order is unspecified; the model threads an explicit
  `reorder` function over the histogram table and quantifies over all
  reorderings that are permutations (`TablePerm`).
-/

namespace Sivana

/-- Peak from src/peaks.rs: `{time_idx: usize, freq_bin_idx: usize, magnitude: f32}`. -/
structure Peak where
  time_idx : Nat
  freq_bin_idx : Nat
  magnitude : ℚ
deriving DecidableEq, Repr

/-- Fingerprint from src/hashing.rs: `{hash: u64, anchor_time_idx: usize}`. -/
structure Fingerprint where
  hash : Nat
  anchor_time_idx : Nat
deriving DecidableEq, Repr

/-! ## Spectrogram (src/spectrogram.rs) -/

/-- Embeds `create_spectrogram` (src/spectrogram.rs lines 22-69).
`fftW` stands for the composite of the element-wise Hann multiplication and the
in-place forward FFT of the `window_size`-length buffer; `normF` stands for
`Complex::norm`.  In the source the buffer's length is `window_size` by
construction (in-place `fft.process`), so the bin reads `buffer[k]`,
`k < window_size/2 + 1 ≤ window_size`, are in bounds; `getD` models them.
The `_sample_rate` argument is unused by the source as well. -/
def create_spectrogram {α γ : Type} [Inhabited γ] (fftW : List α → List γ)
    (normF : γ → ℚ) (samples : List α) (_sample_rate : Nat)
    (window_size hop_size : Nat) : List (List ℚ) :=
  if samples.length < window_size then []
  else
    let num_frames := (samples.length - window_size) / hop_size + 1
    if num_frames = 0 then []
    else
      (List.range num_frames).map fun i =>
        let chunk := (samples.drop (i * hop_size)).take window_size
        let buffer := fftW chunk
        let num_bins_to_keep := window_size / 2 + 1
        (List.range num_bins_to_keep).map fun k => normF (buffer.getD k default)

/-! ## Peak picking (src/peaks.rs) -/

/-- `spectrogram[t][f]` with Rust panics modelled away by a default of `0`;
the theorems about in-bounds accesses track where the source really reads. -/
def cell (S : List (List ℚ)) (t f : Nat) : ℚ := (S.getD t []).getD f 0

/-- The inner neighborhood test of `find_peaks` (src/peaks.rs lines 42-65):
the clipped double loop over `[t_start, t_end) × [f_start, f_end)` that sets
`is_local_max = false` on a strictly greater neighbor or an equal-magnitude
neighbor that precedes `(t,f)` in row-major order.  The source's `break`s
only short-circuit a conjunction, which `List.all` also short-circuits. -/
def is_local_max_at (S : List (List ℚ)) (Tr Fr t f : Nat) : Bool :=
  let num_frames := S.length
  let num_freq_bins := (S.headD []).length
  let cur := cell S t f
  let t_start := t - Tr
  let t_end := min (t + Tr + 1) num_frames
  let f_start := f - Fr
  let f_end := min (f + Fr + 1) num_freq_bins
  (List.range' t_start (t_end - t_start)).all fun nt =>
    (List.range' f_start (f_end - f_start)).all fun nf =>
      (nt == t && nf == f) ||
      (!(cur < cell S nt nf) &&
       !(cell S nt nf == cur && (nt < t || (nt == t && nf < f))))

/-- Embeds `find_peaks` (src/peaks.rs lines 9-78): early return on an empty
spectrogram or empty first frame, then a row-major scan pushing every cell that
passes the magnitude threshold and the neighborhood test. -/
def find_peaks (S : List (List ℚ)) (Tr Fr : Nat) (mmin : ℚ) : List Peak :=
  if S.isEmpty || (S.headD []).isEmpty then []
  else
    (List.range S.length).flatMap fun t =>
      (List.range (S.headD []).length).filterMap fun f =>
        let m := cell S t f
        if m < mmin then none
        else if is_local_max_at S Tr Fr t f then
          some ⟨t, f, m⟩
        else none

/-! ## Hashing (src/hashing.rs) -/

def TARGET_ZONE_DT_MIN_FRAMES : Nat := 1
def TARGET_ZONE_DT_MAX_FRAMES : Nat := 50
def TARGET_ZONE_DF_ABS_MAX_BINS : Nat := 200
def MAX_PAIRS_PER_ANCHOR : Nat := 5
def HASH_FREQ_BITS : Nat := 10
def HASH_DELTA_TIME_BITS : Nat := 8

/-- `target_peak.time_idx.saturating_sub(anchor_peak.time_idx)`:
`Nat` subtraction is saturating subtraction. -/
def delta_time_frames (a b : Peak) : Nat := b.time_idx - a.time_idx

/-- `(target.freq_bin_idx as isize - anchor.freq_bin_idx as isize).abs() as usize`. -/
def delta_freq_bins_abs (a b : Peak) : Nat :=
  ((b.freq_bin_idx : Int) - (a.freq_bin_idx : Int)).natAbs

/-- The hash computation of src/hashing.rs lines 54-64: mask each field to its
width, then pack `f_anchor | f_target | Δt` into 28 bits of a `u64`.  All
intermediate values are `< 2^28 < 2^64`, so `Nat` agrees with `u64`. -/
def robust_hash_val (f1 f2 dt : Nat) : Nat :=
  let f1_masked := f1 &&& ((1 <<< HASH_FREQ_BITS) - 1)
  let f2_masked := f2 &&& ((1 <<< HASH_FREQ_BITS) - 1)
  let dt_masked := dt &&& ((1 <<< HASH_DELTA_TIME_BITS) - 1)
  (f1_masked <<< (HASH_FREQ_BITS + HASH_DELTA_TIME_BITS)) |||
    (f2_masked <<< HASH_DELTA_TIME_BITS) ||| dt_masked

/-- The fingerprint pushed for an accepted pair `(a, b)`. -/
def mk_fingerprint (a b : Peak) : Fingerprint :=
  ⟨robust_hash_val a.freq_bin_idx b.freq_bin_idx (delta_time_frames a b),
   a.time_idx⟩

/-- The target-zone acceptance test of src/hashing.rs lines 46-52 as one
predicate: the three `continue`s skip exactly the pairs violating it. -/
def pair_ok (dt_min dt_max df_abs_max : Nat) (a b : Peak) : Bool :=
  !(delta_time_frames a b < dt_min) && !(delta_time_frames a b > dt_max) &&
    !(delta_freq_bins_abs a b > df_abs_max)

/-- The inner `j` loop of `create_hashes` (src/hashing.rs lines 41-71) for one
anchor: scan the peaks after the anchor in order, with the
`pairs_found_for_this_anchor >= max_pairs_per_anchor` break at the top of each
iteration and `continue` (not `break`) on every rejected pair. -/
def anchor_scan (dt_min dt_max df_abs_max max_pairs : Nat) (a : Peak) :
    List Peak → Nat → List Fingerprint
  | [], _ => []
  | b :: bs, cnt =>
    if max_pairs ≤ cnt then []
    else if pair_ok dt_min dt_max df_abs_max a b then
      mk_fingerprint a b :: anchor_scan dt_min dt_max df_abs_max max_pairs a bs (cnt + 1)
    else anchor_scan dt_min dt_max df_abs_max max_pairs a bs cnt

/-- The outer `i` loop of `create_hashes`: anchor `peaks[i]`, targets
`peaks[i+1..]`, i.e. a scan over the tails of the peak list. -/
def hash_all_anchors (dt_min dt_max df_abs_max max_pairs : Nat) :
    List Peak → List Fingerprint
  | [] => []
  | a :: rest =>
    anchor_scan dt_min dt_max df_abs_max max_pairs a rest 0 ++
      hash_all_anchors dt_min dt_max df_abs_max max_pairs rest

/-- Embeds `create_hashes` (src/hashing.rs lines 18-75). -/
def create_hashes (peaks : List Peak)
    (dt_min dt_max df_abs_max max_pairs : Nat) : List Fingerprint :=
  if peaks.length < 2 then []
  else hash_all_anchors dt_min dt_max df_abs_max max_pairs peaks

/-! ## Matcher (src/database.rs, `query_db_and_match`) -/

/-- `MatchResult` from src/database.rs lines 23-28. -/
structure MatchResult where
  song_id : Nat
  score : Nat
  time_offset_in_song_frames : Int
deriving DecidableEq, Repr

/-- The per-song offset histogram `HashMap<isize, usize>`, as an association
list in first-insertion order (the map's contents; iteration order is
quantified separately). -/
abbrev Hist := List (Int × Nat)

/-- `offset_histograms : HashMap<SongId, HashMap<isize, usize>>`, likewise as
an association list in first-insertion order. -/
abbrev HistTable := List (Nat × Hist)

/-- `*song_histogram.entry(delta).or_insert(0) += 1`. -/
def bump_inner : Hist → Int → Hist
  | [], δ => [(δ, 1)]
  | (d, c) :: rest, δ =>
    if d = δ then (d, c + 1) :: rest else (d, c) :: bump_inner rest δ

/-- `offset_histograms.entry(song_id).or_insert_with(...)` followed by the
inner bump. -/
def bump_table : HistTable → Nat → Int → HistTable
  | [], sid, δ => [(sid, [(δ, 1)])]
  | (s, h) :: rest, sid, δ =>
    if s = sid then (s, bump_inner h δ) :: rest
    else (s, h) :: bump_table rest sid δ

/-- The histogram-building loop of `query_db_and_match` (src/database.rs lines
192-217).  `lookup hash = none` models a failed `SELECT` for that hash, which
the source logs and skips; `some entries` is the row list
`[(song_id, anchor_time_idx)]`.  `δ = db_anchor − query_anchor` as `isize`. -/
def hist_step (lookup : Nat → Option (List (Nat × Nat)))
    (tbl : HistTable) (q : Fingerprint) : HistTable :=
  match lookup q.hash with
  | none => tbl
  | some entries =>
    entries.foldl
      (fun tbl e =>
        bump_table tbl e.1 ((e.2 : Int) - (q.anchor_time_idx : Int)))
      tbl

def build_hist (lookup : Nat → Option (List (Nat × Nat)))
    (qfps : List Fingerprint) : HistTable :=
  qfps.foldl (hist_step lookup) []

/-- One step of `histogram.iter().max_by_key(|entry| entry.1)`: keep the
entry with the larger count, replacing on ties so that the last maximal entry
(in the given iteration order) wins — Rust's `max_by_key` returns the last
maximum. -/
def inner_step (acc : Option (Int × Nat)) (e : Int × Nat) : Option (Int × Nat) :=
  match acc with
  | none => some e
  | some b => if b.2 ≤ e.2 then some e else some b

/-- `histogram.iter().max_by_key(|entry| entry.1)`. -/
def inner_best (h : Hist) : Option (Int × Nat) := h.foldl inner_step none

/-- One step of the selection loop over `&offset_histograms`
(src/database.rs lines 239-251): replace the running best only when the
song's score is strictly greater. -/
def sel_step (best : Option MatchResult) (e : Nat × Hist) : Option MatchResult :=
  match inner_best e.2 with
  | none => best
  | some (δ, score) =>
    if (match best with
        | none => true
        | some cur => decide (cur.score < score)) then
      some ⟨e.1, score, δ⟩
    else best

/-- The selection loop: since replacement needs a strictly greater score, the
first entry (in the given iteration order) attaining the overall maximum
wins. -/
def select_best (entries : HistTable) : Option MatchResult :=
  entries.foldl sel_step none

def MIN_MATCH_SCORE : Nat := 100

/-- Embeds `query_db_and_match` (src/database.rs lines 168-267).  `reorder`
makes the unspecified `HashMap` iteration order explicit: the source iterates
`offset_histograms` in whatever order the hash map yields; theorems quantify
over every `reorder` that permutes the table (`TablePerm`). -/
def query_db_and_match (lookup : Nat → Option (List (Nat × Nat)))
    (reorder : HistTable → HistTable)
    (qfps : List Fingerprint) : Option MatchResult :=
  if qfps.isEmpty then none
  else if (build_hist lookup qfps).isEmpty then none
  else
    match select_best (reorder (build_hist lookup qfps)) with
    | none => none
    | some result =>
      if result.score < MIN_MATCH_SCORE then none else some result

/-- Two histogram tables are equal up to iteration order: a permutation of the
entries, with each song's inner histogram itself permuted. -/
def TablePerm (a b : HistTable) : Prop :=
  ∃ b', a.Perm b' ∧ List.Forall₂ (fun x y => x.1 = y.1 ∧ x.2.Perm y.2) b' b

/-! ## Fingerprint store (src/database.rs, `enroll_song`) -/

/-- One row of the `songs` table: `song_id INTEGER PRIMARY KEY, name,
file_path UNIQUE` (`enrolled_at` carries no claim-relevant content). -/
structure SongRow where
  song_id : Int
  name : String
  file_path : Option String
deriving DecidableEq, Repr

/-- One row of the `fingerprints` table: `hash, song_id, anchor_time_idx`,
all stored as SQLite `INTEGER` (`i64`). -/
structure FpRow where
  hash : Int
  song_id : Int
  anchor_time_idx : Int
deriving DecidableEq, Repr

/-- The SQLite database file plus the connection's `last_insert_rowid`
register.  Rows are kept in insertion order; the fingerprint multiset is the
`fingerprints` list up to permutation. -/
structure DbState where
  songs : List SongRow
  fingerprints : List FpRow
  last_insert_rowid : Int
deriving DecidableEq, Repr

/-- SQLite's rowid allocation for `INTEGER PRIMARY KEY`: one more than the
largest rowid in use. -/
def next_song_id (st : DbState) : Int :=
  (st.songs.map SongRow.song_id).foldl max 0 + 1

/-- The upsert `INSERT INTO songs (name, file_path) VALUES (?1, ?2) ON
CONFLICT(file_path) DO UPDATE SET name = excluded.name` (src/database.rs lines
90-93).  A `NULL` `file_path` never conflicts; a conflicting `INSERT` turns
into an `UPDATE`, which does not touch `last_insert_rowid`; a plain `INSERT`
sets `last_insert_rowid` to the new row's id. -/
def upsert_song (st : DbState) (name : String) (path : Option String) :
    DbState :=
  match path with
  | some p =>
    if (st.songs.filter fun r => r.file_path = some p).isEmpty then
      let id := next_song_id st
      { st with songs := st.songs ++ [⟨id, name, some p⟩],
                last_insert_rowid := id }
    else
      { st with
          songs := st.songs.map fun r =>
            if r.file_path = some p then { r with name := name } else r }
  | none =>
    let id := next_song_id st
    { st with songs := st.songs ++ [⟨id, name, none⟩],
              last_insert_rowid := id }

/-- `SELECT song_id FROM songs WHERE file_path = ?1`. -/
def select_song_id_by_path (st : DbState) (p : String) : Option Int :=
  (st.songs.find? fun r => r.file_path = some p).map SongRow.song_id

/-- `final_song_id_db as SongId` with `SongId = u32`: two's-complement
truncation of an `i64` to a `u32`. -/
def to_u32 (z : Int) : Nat := (z % (2 ^ 32 : Int)).toNat

/-- Resolution of `final_song_id_db` (src/database.rs lines 117-131): when
`last_insert_rowid` is 0 (the upsert hit the `ON CONFLICT` update path on a
connection that never inserted), re-select the id by `file_path`; with no
path this is the "insert yielded 0" error; otherwise use the rowid. -/
def resolve_song_id (st1 : DbState) (song_file_path : Option String) :
    Except String Int :=
  if st1.last_insert_rowid = 0 then
    match song_file_path with
    | some p =>
      match select_song_id_by_path st1 p with
      | some idv => Except.ok idv
      | none => Except.error "Failed to get song_id after presumed conflict"
    | none =>
      Except.error
        "Failed to obtain a valid song_id (no file_path and insert yielded 0)."
  else Except.ok st1.last_insert_rowid

/-- Embeds `enroll_song` (src/database.rs lines 74-164).  The audio pipeline's
first stage is the parameter `spectro` (it wraps the floating-point
`create_spectrogram`; only its purity matters to the store-level claims), then
the embedded `find_peaks` and `create_hashes` run with the given parameters.
Returns the state the database is left in together with the source's
`Result<SongId, String>`.  SQL statements themselves are assumed error-free,
so the upsert takes its `Ok` branch and the fingerprint transaction commits;
every `return Err` of the source that is reachable in that regime is
modelled. -/
def enroll_song {α : Type} (spectro : List α → List (List ℚ))
    (st : DbState) (song_name : String) (song_file_path : Option String)
    (song_audio_samples : List α)
    (peak_params : Nat × Nat × ℚ) (hash_params : Nat × Nat × Nat × Nat) :
    DbState × Except String Nat :=
  -- 1. upsert the song row (written out at each use to keep the term
  -- `let`-free), then resolve `final_song_id_db`
  match resolve_song_id (upsert_song st song_name song_file_path)
      song_file_path with
  | Except.error e => (upsert_song st song_name song_file_path, Except.error e)
  | Except.ok final_song_id_db =>
    -- 2. fingerprint generation
    if (spectro song_audio_samples).isEmpty then
      (upsert_song st song_name song_file_path,
       Except.error "Failed to generate spectrogram")
    else if (find_peaks (spectro song_audio_samples) peak_params.1
        peak_params.2.1 peak_params.2.2).isEmpty then
      (upsert_song st song_name song_file_path, Except.error "No peaks found")
    else if (create_hashes
        (find_peaks (spectro song_audio_samples) peak_params.1
          peak_params.2.1 peak_params.2.2)
        hash_params.1 hash_params.2.1 hash_params.2.2.1
        hash_params.2.2.2).isEmpty then
      (upsert_song st song_name song_file_path,
       Except.error "No fingerprints generated")
    else
      -- 3. transaction: INSERT every fingerprint row, then commit.
      -- There is no DELETE of the song's previous fingerprints.
      ({ upsert_song st song_name song_file_path with
          fingerprints :=
            (upsert_song st song_name song_file_path).fingerprints ++
              (create_hashes
                (find_peaks (spectro song_audio_samples) peak_params.1
                  peak_params.2.1 peak_params.2.2)
                hash_params.1 hash_params.2.1 hash_params.2.2.1
                hash_params.2.2.2).map fun fp =>
                ⟨(fp.hash : Int), final_song_id_db,
                 (fp.anchor_time_idx : Int)⟩ },
       Except.ok (to_u32 final_song_id_db))

/-! ## Derived notions used by the theorems -/

/-- `(t', f')` precedes `(t, f)` in row-major order. -/
def row_major_lt (a b : Nat × Nat) : Prop :=
  a.1 < b.1 ∨ (a.1 = b.1 ∧ a.2 < b.2)

instance (a b : Nat × Nat) : Decidable (row_major_lt a b) := by
  unfold row_major_lt; infer_instance

/-- The peak property exactly as the specification words it: magnitude at
least `m_min`, no strictly greater neighbor within the clipped window
`|t'-t| ≤ Tr`, `|f'-f| ≤ Fr`, and no equal-magnitude neighbor that precedes
the cell in row-major order. -/
def IsPeakSpec (S : List (List ℚ)) (Tr Fr : Nat) (mmin : ℚ) (t f : Nat) :
    Prop :=
  t < S.length ∧ f < (S.headD []).length ∧ mmin ≤ cell S t f ∧
  ∀ nt nf, nt < S.length → nf < (S.headD []).length → (nt, nf) ≠ (t, f) →
    t - Tr ≤ nt → nt ≤ t + Tr → f - Fr ≤ nf → nf ≤ f + Fr →
    ¬ (cell S t f < cell S nt nf) ∧
    ¬ (cell S nt nf = cell S t f ∧ row_major_lt (nt, nf) (t, f))

/-- The highest count in one offset histogram (the song's score). -/
def maxCount (h : Hist) : Nat := (h.map Prod.snd).foldl max 0

/-- The highest score over the whole histogram table. -/
def maxScore (t : HistTable) : Nat :=
  (t.map fun e => maxCount e.2).foldl max 0

/-! ### The reads `find_peaks` performs (for the bounds-safety claim) -/

/-- Row-major list of the neighbor cells the inner double loop of
`find_peaks` visits for candidate `(t, f)` (self excluded: the source
`continue`s on `(t, f)` before reading it). -/
def scan_pairs (S : List (List ℚ)) (Tr Fr t f : Nat) : List (Nat × Nat) :=
  let t_start := t - Tr
  let t_end := min (t + Tr + 1) S.length
  let f_start := f - Fr
  let f_end := min (f + Fr + 1) (S.headD []).length
  (List.range' t_start (t_end - t_start)).flatMap fun nt =>
    (List.range' f_start (f_end - f_start)).filterMap fun nf =>
      if nt = t ∧ nf = f then none else some (nt, nf)

/-- Whether visiting `(nt, nf)` makes `find_peaks` break out of the
neighborhood scan of `(t, f)`. -/
def disqualifies (S : List (List ℚ)) (t f : Nat) (p : Nat × Nat) : Bool :=
  cell S t f < cell S p.1 p.2 ||
    (cell S p.1 p.2 == cell S t f &&
      (p.1 < t || (p.1 == t && p.2 < f)))

/-- The prefix of a list up to and including the first element satisfying
`p` (the elements a loop with a conditional break actually touches). -/
def take_through {β : Type} (p : β → Bool) : List β → List β
  | [] => []
  | x :: xs => if p x then [x] else x :: take_through p xs

/-- The neighbor cells the source actually reads while scanning the
neighborhood of `(t, f)`: the row-major visit order, stopped at (and
including) the first disqualifying neighbor, matching the two `break`s of
src/peaks.rs lines 53-64. -/
def neighbor_scan_reads (S : List (List ℚ)) (Tr Fr t f : Nat) :
    List (Nat × Nat) :=
  take_through (disqualifies S t f) (scan_pairs S Tr Fr t f)

/-- Every `(row, column)` index pair `find_peaks` reads from the spectrogram:
for each cell of the `num_frames × num_freq_bins` grid the unconditional
threshold read, then — when the threshold passes — the neighborhood scan. -/
def find_peaks_reads (S : List (List ℚ)) (Tr Fr : Nat) (mmin : ℚ) :
    List (Nat × Nat) :=
  if S.isEmpty || (S.headD []).isEmpty then []
  else
    (List.range S.length).flatMap fun t =>
      (List.range (S.headD []).length).flatMap fun f =>
        (t, f) ::
          (if cell S t f < mmin then [] else neighbor_scan_reads S Tr Fr t f)

/-! ## Helper lemmas -/

/-- `pair_ok` spelt out as the target-zone bounds. -/
lemma pair_ok_iff (p1 p2 p3 : Nat) (a b : Peak) :
    pair_ok p1 p2 p3 a b = true ↔
      p1 ≤ delta_time_frames a b ∧ delta_time_frames a b ≤ p2 ∧
        delta_freq_bins_abs a b ≤ p3 := by
  simp only [pair_ok, Bool.and_eq_true, Bool.not_eq_true', decide_eq_false_iff_not]
  omega

/-- The inner anchor loop emits the first `max_pairs − cnt` target-zone
matches among the remaining peaks, in order. -/
lemma anchor_scan_eq (p1 p2 p3 pmax : Nat) (a : Peak) :
    ∀ (bs : List Peak) (cnt : Nat),
      anchor_scan p1 p2 p3 pmax a bs cnt =
        ((bs.filter (pair_ok p1 p2 p3 a)).take (pmax - cnt)).map
          (mk_fingerprint a)
  | [], cnt => by simp [anchor_scan]
  | b :: bs, cnt => by
    by_cases hc : pmax ≤ cnt
    · have h0 : pmax - cnt = 0 := Nat.sub_eq_zero_of_le hc
      simp [anchor_scan, hc, h0]
    · by_cases hok : pair_ok p1 p2 p3 a b = true
      · have h1 : pmax - cnt = (pmax - (cnt + 1)) + 1 := by omega
        simp [anchor_scan, hc, hok, anchor_scan_eq p1 p2 p3 pmax a bs (cnt + 1),
          List.filter_cons, h1]
      · simp [anchor_scan, hc, hok, anchor_scan_eq p1 p2 p3 pmax a bs cnt,
          List.filter_cons]

/-- Every fingerprint emitted by the anchor loops comes from an anchor and a
strictly later target satisfying the target-zone test. -/
lemma mem_hash_all_anchors (p1 p2 p3 pmax : Nat) {fp : Fingerprint} :
    ∀ peaks : List Peak, fp ∈ hash_all_anchors p1 p2 p3 pmax peaks →
      ∃ l1 a l2 b l3, peaks = l1 ++ a :: (l2 ++ b :: l3) ∧
        pair_ok p1 p2 p3 a b = true ∧ fp = mk_fingerprint a b
  | [], h => by simp [hash_all_anchors] at h
  | a :: rest, h => by
    rw [hash_all_anchors, List.mem_append] at h
    rcases h with h1 | h2
    · rw [anchor_scan_eq] at h1
      rcases List.mem_map.mp h1 with ⟨b, hb, rfl⟩
      have hbf : b ∈ rest.filter (pair_ok p1 p2 p3 a) := List.mem_of_mem_take hb
      rcases List.mem_filter.mp hbf with ⟨hbm, hok⟩
      rcases List.append_of_mem hbm with ⟨l2, l3, rfl⟩
      exact ⟨[], a, l2, b, l3, rfl, hok, rfl⟩
    · rcases mem_hash_all_anchors p1 p2 p3 pmax rest h2 with
        ⟨l1, a', l2, b, l3, hsplit, hok, hfp⟩
      exact ⟨a :: l1, a', l2, b, l3, by rw [hsplit]; rfl, hok, hfp⟩

/-- C5: shape of the spectrogram.
For samples of length `N`, window `W > 0`, hop `H > 0`: an empty output (not
an error) when `N < W`, otherwise exactly `⌊(N − W)/H⌋ + 1` frames, each a
vector of exactly `W/2 + 1` magnitudes. -/
theorem C5_create_spectrogram_shape {α γ : Type} [Inhabited γ]
    (fftW : List α → List γ) (normF : γ → ℚ) (samples : List α)
    (R W H : Nat) (_hW : 0 < W) (_hH : 0 < H) :
    (samples.length < W → create_spectrogram fftW normF samples R W H = []) ∧
    (W ≤ samples.length →
      (create_spectrogram fftW normF samples R W H).length
          = (samples.length - W) / H + 1 ∧
      ∀ fr ∈ create_spectrogram fftW normF samples R W H,
        fr.length = W / 2 + 1) := by
  constructor
  · intro h
    simp [create_spectrogram, h]
  · intro h
    have hlt : ¬ samples.length < W := not_lt.mpr h
    refine ⟨by simp [create_spectrogram, hlt], ?_⟩
    intro fr hfr
    simp only [create_spectrogram, hlt, if_false, if_neg (Nat.succ_ne_zero _),
      List.mem_map, List.mem_range] at hfr
    rcases hfr with ⟨i, _, rfl⟩
    simp

/-- Witness for C5 at a concrete input: 3 samples, `W = 2`, `H = 1` give 2
frames of 2 bins each. -/
theorem C5_create_spectrogram_shape_witness :
    (create_spectrogram (fun l => l) (fun q => q) [(1 : ℚ), 2, 3] 22050 2 1).length
        = 2 ∧
    ∀ fr ∈ create_spectrogram (fun l => l) (fun q => q) [(1 : ℚ), 2, 3] 22050 2 1,
      fr.length = 2 :=
  (C5_create_spectrogram_shape (fun l => l) (fun q => q) [(1 : ℚ), 2, 3]
    22050 2 1 (by decide) (by decide)).2 (by decide)

/-- C7: target-zone pairing.
Each anchor contributes the first `P_max` later peaks whose saturating frame
delta lies in `[dt_min, dt_max]` and whose absolute bin delta is at most
`df_abs_max` — rejected pairs (including `Δt > dt_max`) are skipped, not a
reason to stop the scan, as the block is a `filter` over all later peaks
rather than a `takeWhile`; consequently at most `P_max` fingerprints arise
per anchor, and every emitted fingerprint comes from such a pair with its
anchor's `time_idx`. -/
theorem C7_create_hashes_pairs (peaks : List Peak) (p1 p2 p3 pmax : Nat) :
    (∀ (a : Peak) (rest : List Peak),
        hash_all_anchors p1 p2 p3 pmax (a :: rest) =
          ((rest.filter (pair_ok p1 p2 p3 a)).take pmax).map (mk_fingerprint a)
            ++ hash_all_anchors p1 p2 p3 pmax rest) ∧
    (∀ (a : Peak) (rest : List Peak),
        (((rest.filter (pair_ok p1 p2 p3 a)).take pmax).map
            (mk_fingerprint a)).length ≤ pmax) ∧
    (∀ fp ∈ create_hashes peaks p1 p2 p3 pmax,
        ∃ l1 a l2 b l3, peaks = l1 ++ a :: (l2 ++ b :: l3) ∧
          p1 ≤ delta_time_frames a b ∧ delta_time_frames a b ≤ p2 ∧
          delta_freq_bins_abs a b ≤ p3 ∧
          fp.anchor_time_idx = a.time_idx ∧ fp = mk_fingerprint a b) := by
  refine ⟨?_, ?_, ?_⟩
  · intro a rest
    rw [hash_all_anchors, anchor_scan_eq, Nat.sub_zero]
  · intro a rest
    calc (((rest.filter (pair_ok p1 p2 p3 a)).take pmax).map
            (mk_fingerprint a)).length
        = ((rest.filter (pair_ok p1 p2 p3 a)).take pmax).length :=
          List.length_map _ _
      _ ≤ pmax := List.length_take_le _ _
  · intro fp hfp
    rw [create_hashes] at hfp
    split at hfp
    · simp at hfp
    · rcases mem_hash_all_anchors p1 p2 p3 pmax peaks hfp with
        ⟨l1, a, l2, b, l3, hsplit, hok, hfp'⟩
      rcases (pair_ok_iff p1 p2 p3 a b).mp hok with ⟨h1, h2, h3⟩
      exact ⟨l1, a, l2, b, l3, hsplit, h1, h2, h3, by rw [hfp']; rfl, hfp'⟩

/-- Witness for C7: with anchors `(t=0,f=0)`, `(t=100,f=0)`, `(t=1,f=0)` and
`Δt ∈ [1,50]`, the out-of-zone middle peak is skipped while the later third
peak still pairs with the first anchor. -/
theorem C7_create_hashes_pairs_witness :
    ∃ l1 a l2 b l3,
      ([⟨0, 0, 5⟩, ⟨100, 0, 5⟩, ⟨1, 0, 5⟩] : List Peak)
          = l1 ++ a :: (l2 ++ b :: l3) ∧
      1 ≤ delta_time_frames a b ∧ delta_time_frames a b ≤ 50 ∧
      delta_freq_bins_abs a b ≤ 200 ∧
      (⟨robust_hash_val 0 0 1, 0⟩ : Fingerprint).anchor_time_idx = a.time_idx ∧
      (⟨robust_hash_val 0 0 1, 0⟩ : Fingerprint) = mk_fingerprint a b :=
  (C7_create_hashes_pairs [⟨0, 0, 5⟩, ⟨100, 0, 5⟩, ⟨1, 0, 5⟩] 1 50 200 5).2.2
    ⟨robust_hash_val 0 0 1, 0⟩ (by decide)

/-- The packed hash is below `2^28`. -/
lemma robust_hash_val_lt (f1 f2 dt : Nat) :
    robust_hash_val f1 f2 dt < 2 ^ 28 := by
  have m1 : f1 &&& ((1 <<< HASH_FREQ_BITS) - 1) ≤ 1023 := Nat.and_le_right
  have m2 : f2 &&& ((1 <<< HASH_FREQ_BITS) - 1) ≤ 1023 := Nat.and_le_right
  have m3 : dt &&& ((1 <<< HASH_DELTA_TIME_BITS) - 1) ≤ 255 := Nat.and_le_right
  have h1 : (f1 &&& ((1 <<< HASH_FREQ_BITS) - 1)) <<<
      (HASH_FREQ_BITS + HASH_DELTA_TIME_BITS) < 2 ^ 28 := by
    rw [Nat.shiftLeft_eq]
    calc (f1 &&& ((1 <<< HASH_FREQ_BITS) - 1)) *
          2 ^ (HASH_FREQ_BITS + HASH_DELTA_TIME_BITS)
        ≤ 1023 * 2 ^ (HASH_FREQ_BITS + HASH_DELTA_TIME_BITS) :=
          Nat.mul_le_mul_right _ m1
      _ < 2 ^ 28 := by norm_num [HASH_FREQ_BITS, HASH_DELTA_TIME_BITS]
  have h2 : (f2 &&& ((1 <<< HASH_FREQ_BITS) - 1)) <<< HASH_DELTA_TIME_BITS
      < 2 ^ 28 := by
    rw [Nat.shiftLeft_eq]
    calc (f2 &&& ((1 <<< HASH_FREQ_BITS) - 1)) * 2 ^ HASH_DELTA_TIME_BITS
        ≤ 1023 * 2 ^ HASH_DELTA_TIME_BITS := Nat.mul_le_mul_right _ m2
      _ < 2 ^ 28 := by norm_num [HASH_DELTA_TIME_BITS]
  have h3 : dt &&& ((1 <<< HASH_DELTA_TIME_BITS) - 1) < 2 ^ 28 := by omega
  exact Nat.or_lt_two_pow (Nat.or_lt_two_pow h1 h2) h3

/-- C8: hash layout.
Every emitted hash is the 28-bit pack
`(f_anchor & (2^10−1)) << 18 | (f_target & (2^10−1)) << 8 | (Δt & (2^8−1))`
of its pair's anchor bin, target bin and (saturating) frame delta, hence is
below `2^28` and has all upper 36 of its 64 bits zero. -/
theorem C8_hash_layout (peaks : List Peak) (p1 p2 p3 pmax : Nat) :
    ∀ fp ∈ create_hashes peaks p1 p2 p3 pmax,
      (∃ a b : Peak, fp = mk_fingerprint a b ∧
        fp.hash =
          ((a.freq_bin_idx &&& (2 ^ 10 - 1)) <<< 18) |||
            ((b.freq_bin_idx &&& (2 ^ 10 - 1)) <<< 8) |||
            ((b.time_idx - a.time_idx) &&& (2 ^ 8 - 1))) ∧
      fp.hash < 2 ^ 28 ∧ fp.hash >>> 28 = 0 := by
  intro fp hfp
  rw [create_hashes] at hfp
  split at hfp
  · simp at hfp
  · rcases mem_hash_all_anchors p1 p2 p3 pmax peaks hfp with
      ⟨_, a, _, b, _, _, _, hfp'⟩
    have hlt : fp.hash < 2 ^ 28 := by
      rw [hfp']; exact robust_hash_val_lt _ _ _
    refine ⟨⟨a, b, hfp', by rw [hfp']; rfl⟩, hlt, ?_⟩
    rw [Nat.shiftRight_eq_div_pow]
    exact Nat.div_eq_of_lt hlt

/-- Witness for C8 at the pair `(t=0,f=0) → (t=1,f=3)`: the emitted hash is
`(0 << 18) | (3 << 8) | 1 = 769 < 2^28`. -/
theorem C8_hash_layout_witness :
    (∃ a b : Peak, (⟨769, 0⟩ : Fingerprint) = mk_fingerprint a b ∧
      (⟨769, 0⟩ : Fingerprint).hash =
        ((a.freq_bin_idx &&& (2 ^ 10 - 1)) <<< 18) |||
          ((b.freq_bin_idx &&& (2 ^ 10 - 1)) <<< 8) |||
          ((b.time_idx - a.time_idx) &&& (2 ^ 8 - 1))) ∧
    (⟨769, 0⟩ : Fingerprint).hash < 2 ^ 28 ∧
    (⟨769, 0⟩ : Fingerprint).hash >>> 28 = 0 :=
  C8_hash_layout [⟨0, 0, 5⟩, ⟨1, 3, 5⟩] 1 50 200 5 ⟨769, 0⟩ (by decide)

lemma is_local_max_at_iff (S : List (List ℚ)) (Tr Fr t f : Nat)
    (ht : t < S.length) (hf : f < (S.headD []).length) :
    is_local_max_at S Tr Fr t f = true ↔
      ∀ nt nf, nt < S.length → nf < (S.headD []).length → (nt, nf) ≠ (t, f) →
        t - Tr ≤ nt → nt ≤ t + Tr → f - Fr ≤ nf → nf ≤ f + Fr →
        ¬ (cell S t f < cell S nt nf) ∧
        ¬ (cell S nt nf = cell S t f ∧ row_major_lt (nt, nf) (t, f)) := by
  unfold is_local_max_at
  simp only [List.all_eq_true, List.mem_range'_1, Bool.or_eq_true,
    Bool.and_eq_true, beq_iff_eq, Bool.not_eq_true', decide_eq_false_iff_not,
    decide_eq_true_eq, row_major_lt]
  constructor
  · intro H nt nf h1 h2 h3 h4 h5 h6 h7
    have hx := H nt ⟨h4, by omega⟩ nf ⟨h6, by omega⟩
    rcases hx with ⟨hnt, hnf⟩ | ⟨hgt, heq⟩
    · exact absurd (by rw [hnt, hnf]) h3
    · refine ⟨hgt, ?_⟩
      rintro ⟨hc, hord⟩
      rw [hc] at heq
      simp only [beq_self_eq_true, Bool.true_and, Bool.or_eq_false_iff,
        decide_eq_false_iff_not, Bool.and_eq_false_iff] at heq
      rcases heq with ⟨hlt, h8⟩
      rcases hord with h9 | ⟨h9, h10⟩
      · exact hlt h9
      · rcases h8 with h8 | h8
        · exact absurd h9 (by simpa using h8)
        · exact absurd h10 (by simpa using h8)
  · intro H nt hnt nf hnf
    have h1 : nt < S.length := by omega
    have h2 : nf < (S.headD []).length := by omega
    by_cases hself : nt = t ∧ nf = f
    · exact Or.inl hself
    · right
      have hne : (nt, nf) ≠ (t, f) := by
        intro hcontra
        exact hself ⟨congrArg Prod.fst hcontra, congrArg Prod.snd hcontra⟩
      have hr := H nt nf h1 h2 hne (by omega) (by omega) (by omega) (by omega)
      refine ⟨hr.1, ?_⟩
      rcases eq_or_ne (cell S nt nf) (cell S t f) with hc | hc
      · have hno := hr.2
        rw [hc]
        simp only [beq_self_eq_true, Bool.true_and, Bool.or_eq_false_iff,
          Bool.and_eq_false_iff, decide_eq_false_iff_not]
        constructor
        · intro hlt; exact hno ⟨hc, Or.inl hlt⟩
        · by_cases hnteq : nt = t
          · right
            intro hfl
            exact hno ⟨hc, Or.inr ⟨hnteq, hfl⟩⟩
          · left
            simpa using hnteq
      · simp [hc]

lemma find_peaks_cell_some {S : List (List ℚ)} {Tr Fr : Nat} {mmin : ℚ}
    {t f : Nat} {p : Peak}
    (h : (if cell S t f < mmin then none
          else if is_local_max_at S Tr Fr t f then
            some (⟨t, f, cell S t f⟩ : Peak)
          else none) = some p) :
    ¬ cell S t f < mmin ∧ is_local_max_at S Tr Fr t f = true ∧
      p = ⟨t, f, cell S t f⟩ := by
  split at h
  · exact absurd h (by simp)
  · split at h
    · exact ⟨by assumption, by assumption, (Option.some.inj h).symm⟩
    · exact absurd h (by simp)

/-- C6: peak characterization and output order. -/
theorem C6_find_peaks_characterization (S : List (List ℚ)) (Tr Fr : Nat)
    (mmin : ℚ) (hrect : ∀ fr ∈ S, fr.length = (S.headD []).length) :
    (∀ p : Peak, p ∈ find_peaks S Tr Fr mmin ↔
      IsPeakSpec S Tr Fr mmin p.time_idx p.freq_bin_idx ∧
        p.magnitude = cell S p.time_idx p.freq_bin_idx) ∧
    (find_peaks S Tr Fr mmin).Pairwise
      (fun p q => row_major_lt (p.time_idx, p.freq_bin_idx)
        (q.time_idx, q.freq_bin_idx)) := by
  by_cases hguard : S.isEmpty || (S.headD []).isEmpty
  · rw [find_peaks, if_pos hguard]
    refine ⟨?_, List.Pairwise.nil⟩
    intro p
    simp only [List.not_mem_nil, false_iff]
    rintro ⟨⟨hT, hB, _⟩, _⟩
    rcases Bool.or_eq_true _ _ |>.mp hguard with hg | hg
    · rw [List.isEmpty_iff.mp hg] at hT
      exact absurd hT (by simp)
    · rw [List.isEmpty_iff.mp hg] at hB
      exact absurd hB (by simp)
  · rw [find_peaks, if_neg hguard]
    constructor
    · intro p
      constructor
      · intro hp
        rcases List.mem_flatMap.mp hp with ⟨t, hT, hp2⟩
        rcases List.mem_filterMap.mp hp2 with ⟨f, hF, hsome⟩
        rw [List.mem_range] at hT
        rw [List.mem_range] at hF
        rcases find_peaks_cell_some hsome with ⟨hth, hmax, rfl⟩
        refine ⟨⟨hT, hF, not_lt.mp hth, ?_⟩, rfl⟩
        exact (is_local_max_at_iff S Tr Fr t f hT hF).mp hmax
      · rintro ⟨⟨hT, hB, hth, hnb⟩, hm⟩
        refine List.mem_flatMap.mpr ⟨p.time_idx, List.mem_range.mpr hT, ?_⟩
        refine List.mem_filterMap.mpr ⟨p.freq_bin_idx, List.mem_range.mpr hB, ?_⟩
        rw [if_neg (not_lt.mpr hth),
          if_pos ((is_local_max_at_iff S Tr Fr p.time_idx p.freq_bin_idx hT hB).mpr hnb)]
        cases p with
        | mk pt pf pm => simp only at hm; rw [hm]
    · rw [List.flatMap_def]
      refine List.pairwise_flatten.mpr ⟨?_, ?_⟩
      · intro l hl
        rcases List.mem_map.mp hl with ⟨t, _, rfl⟩
        refine List.Pairwise.filterMap _ ?_ (List.pairwise_lt_range _)
        intro f1 f2 hf12 b hb b2 hb2
        rcases find_peaks_cell_some hb with ⟨_, _, rfl⟩
        rcases find_peaks_cell_some hb2 with ⟨_, _, rfl⟩
        exact Or.inr ⟨rfl, hf12⟩
      · refine (List.pairwise_map).mpr ?_
        refine List.Pairwise.imp ?_ (List.pairwise_lt_range _)
        intro t1 t2 ht12 x hx y hy
        rcases List.mem_filterMap.mp hx with ⟨f1, _, hs1⟩
        rcases List.mem_filterMap.mp hy with ⟨f2, _, hs2⟩
        rcases find_peaks_cell_some hs1 with ⟨_, _, rfl⟩
        rcases find_peaks_cell_some hs2 with ⟨_, _, rfl⟩
        exact Or.inl ht12

/-- Witness for C6: in `[[5, 0], [0, 0]]` with radii 1 and threshold 1, the
cell `(0,0)` is a returned peak, hence satisfies the specification predicate
with magnitude equal to the cell value. -/
theorem C6_find_peaks_characterization_witness :
    IsPeakSpec [[5, 0], [0, 0]] 1 1 1 0 0 ∧
      (5 : ℚ) = cell [[5, 0], [0, 0]] 0 0 :=
  ((C6_find_peaks_characterization [[5, 0], [0, 0]] 1 1 1 (by decide)).1
    ⟨0, 0, 5⟩).mp (by decide)

lemma take_through_subset {β : Type} (p : β → Bool) :
    ∀ l : List β, ∀ x ∈ take_through p l, x ∈ l
  | [], x, hx => by simp [take_through] at hx
  | y :: ys, x, hx => by
    rw [take_through] at hx
    split at hx
    · simp only [List.mem_singleton] at hx
      simp [hx]
    · rcases List.mem_cons.mp hx with h | h
      · simp [h]
      · exact List.mem_cons_of_mem _ (take_through_subset p ys x h)

lemma scan_pairs_bounds {S : List (List ℚ)} {Tr Fr t f : Nat} {x : Nat × Nat}
    (hx : x ∈ scan_pairs S Tr Fr t f) :
    x.1 < S.length ∧ x.2 < (S.headD []).length := by
  unfold scan_pairs at hx
  rcases List.mem_flatMap.mp hx with ⟨nt, hnt, hx2⟩
  rcases List.mem_filterMap.mp hx2 with ⟨nf, hnf, hsome⟩
  rw [List.mem_range'_1] at hnt
  rw [List.mem_range'_1] at hnf
  split at hsome
  · exact absurd hsome (by simp)
  · have hx' : (nt, nf) = x := Option.some.inj hsome
    subst hx'
    constructor
    · show nt < S.length
      omega
    · show nf < (S.headD []).length
      omega

lemma frame_mem {S : List (List ℚ)} {t : Nat} (ht : t < S.length) :
    S.getD t [] ∈ S := by
  rw [List.getD_eq_getElem S [] ht]
  exact List.getElem_mem ht

lemma headD_length_le {β : Type} (g : Nat → List β) (L n : Nat)
    (hg : ∀ i, (g i).length = L) (fr : List β)
    (hfr : fr ∈ List.map g (List.range (n + 1))) :
    ((List.map g (List.range (n + 1))).headD []).length ≤ fr.length := by
  rcases List.mem_map.mp hfr with ⟨i, _, rfl⟩
  rw [List.range_succ_eq_map, List.map_cons, List.headD_cons, hg, hg]

/-- C9: bounds safety of `find_peaks`.
`find_peaks` takes the bin count from the first frame only; every index pair
it reads is in bounds whenever each frame is at least as long as the first
frame — a precondition every output of `create_spectrogram` satisfies — and
the precondition is necessary: on the ragged spectrogram `[[5, 0], [9]]` the
neighborhood scan of cell `(1, 0)` reads `(1, 1)`, past the end of the second
frame. -/
theorem C9_find_peaks_bounds :
    (∀ (S : List (List ℚ)) (Tr Fr : Nat) (mmin : ℚ),
        (∀ fr ∈ S, (S.headD []).length ≤ fr.length) →
        ∀ pr ∈ find_peaks_reads S Tr Fr mmin,
          pr.1 < S.length ∧ pr.2 < (S.getD pr.1 []).length) ∧
    (∀ (α γ : Type) (inst : Inhabited γ) (fftW : List α → List γ)
        (normF : γ → ℚ) (samples : List α) (R W H : Nat),
        ∀ fr ∈ @create_spectrogram α γ inst fftW normF samples R W H,
          ((@create_spectrogram α γ inst fftW normF samples R W H).headD []).length
            ≤ fr.length) ∧
    ((1, 1) ∈ find_peaks_reads [[5, 0], [(9 : ℚ)]] 1 1 1 ∧
      (1, 1) ∈ neighbor_scan_reads [[5, 0], [(9 : ℚ)]] 1 1 1 0 ∧
      ¬ (1 < (([[5, 0], [(9 : ℚ)]] : List (List ℚ)).getD 1 []).length)) := by
  refine ⟨?_, ?_, by decide, by decide, by decide⟩
  · intro S Tr Fr mmin hlen pr hpr
    unfold find_peaks_reads at hpr
    split at hpr
    · simp at hpr
    · rcases List.mem_flatMap.mp hpr with ⟨t, ht, hpr2⟩
      rcases List.mem_flatMap.mp hpr2 with ⟨f, hf, hmem⟩
      rw [List.mem_range] at ht
      rw [List.mem_range] at hf
      have key : pr.1 < S.length ∧ pr.2 < (S.headD []).length := by
        rcases List.mem_cons.mp hmem with h | h
        · rw [h]; exact ⟨ht, hf⟩
        · split at h
          · simp at h
          · exact scan_pairs_bounds (take_through_subset _ _ _ h)
      exact ⟨key.1, lt_of_lt_of_le key.2 (hlen _ (frame_mem key.1))⟩
  · intro α γ inst fftW normF samples R W H fr hfr
    simp only [create_spectrogram] at hfr ⊢
    split at hfr
    · simp at hfr
    · rw [if_neg (Nat.succ_ne_zero _)] at hfr
      rw [if_neg (by assumption), if_neg (Nat.succ_ne_zero _)]
      exact headD_length_le _ (W / 2 + 1) _ (fun j => by simp) _ hfr


/-- Witness for C9 on the rectangular spectrogram `[[5, 0], [0, 0]]`: the
read of `(0, 1)` is in bounds. -/
theorem C9_find_peaks_bounds_witness :
    ((0, 1) : Nat × Nat).1 < ([[5, 0], [(0 : ℚ), 0]] : List (List ℚ)).length ∧
    ((0, 1) : Nat × Nat).2 <
      (([[5, 0], [(0 : ℚ), 0]] : List (List ℚ)).getD ((0, 1) : Nat × Nat).1 []).length :=
  C9_find_peaks_bounds.1 [[5, 0], [(0 : ℚ), 0]] 1 1 1 (by decide) (0, 1)
    (by decide)

/-! ### Matcher fold lemmas -/

lemma foldl_max_perm {l1 l2 : List Nat} (p : l1.Perm l2) :
    ∀ a : Nat, l1.foldl max a = l2.foldl max a := by
  induction p with
  | nil => intro a; rfl
  | cons x _ ih => intro a; simp only [List.foldl_cons]; exact ih _
  | swap x y l =>
    intro a
    simp only [List.foldl_cons, Nat.max_comm, Nat.max_assoc, Nat.max_left_comm]
  | trans _ _ ih1 ih2 => intro a; rw [ih1, ih2]

lemma foldl_max_eq (l : List Nat) : ∀ a : Nat, l.foldl max a = max a (l.foldl max 0) := by
  induction l with
  | nil => intro a; simp
  | cons x t ih =>
    intro a
    simp only [List.foldl_cons]
    rw [ih (max a x), ih (max 0 x)]
    omega

lemma maxCount_perm {h1 h2 : Hist} (p : h1.Perm h2) : maxCount h1 = maxCount h2 :=
  foldl_max_perm (p.map Prod.snd) 0

lemma maxScore_cons (e : Nat × Hist) (t : HistTable) :
    maxScore (e :: t) = max (maxCount e.2) (maxScore t) := by
  unfold maxScore
  simp only [List.map_cons, List.foldl_cons]
  rw [foldl_max_eq _ (max 0 (maxCount e.2))]
  omega

lemma forall2_mem_left {β : Type} {R : β → β → Prop} :
    ∀ {l1 l2 : List β}, List.Forall₂ R l1 l2 → ∀ x ∈ l1, ∃ y ∈ l2, R x y := by
  intro l1 l2 h
  induction h with
  | nil => intro x hx; simp at hx
  | cons hr _ ih =>
    intro x hx
    rcases List.mem_cons.mp hx with rfl | hx2
    · exact ⟨_, List.mem_cons_self _ _, hr⟩
    · rcases ih x hx2 with ⟨y, hy, hxy⟩
      exact ⟨y, List.mem_cons_of_mem _ hy, hxy⟩

lemma TablePerm_maxScore {t1 t2 : HistTable} (h : TablePerm t1 t2) :
    maxScore t1 = maxScore t2 := by
  rcases h with ⟨b, hp, hf⟩
  have h1 : maxScore t1 = maxScore b := by
    unfold maxScore
    exact foldl_max_perm (hp.map _) 0
  have h2 : maxScore b = maxScore t2 := by
    clear h1 hp
    induction hf with
    | nil => rfl
    | cons hr _ ih =>
      rw [maxScore_cons, maxScore_cons, ih, maxCount_perm hr.2]
  rw [h1, h2]

lemma TablePerm_inner_ne {t1 t2 : HistTable} (h : TablePerm t1 t2)
    (hne : ∀ e ∈ t2, e.2 ≠ []) : ∀ e ∈ t1, e.2 ≠ [] := by
  rcases h with ⟨b, hp, hf⟩
  intro e he
  rcases forall2_mem_left hf e (hp.mem_iff.mp he) with ⟨y, hy, _, hperm⟩
  intro hnil
  rw [hnil] at hperm
  exact hne y hy (List.Perm.nil_eq hperm).symm

lemma TablePerm_nil_iff {t1 t2 : HistTable} (h : TablePerm t1 t2) :
    t1 = [] ↔ t2 = [] := by
  rcases h with ⟨b, hp, hf⟩
  constructor
  · intro h1
    subst h1
    have hb : b = [] := (List.Perm.nil_eq hp).symm
    subst hb
    cases hf
    rfl
  · intro h2
    subst h2
    cases hf
    exact List.Perm.eq_nil hp

lemma inner_best_go :
    ∀ (h : Hist) (b : Int × Nat),
      ∃ p, h.foldl inner_step (some b) = some p ∧
        p.2 = (h.map Prod.snd).foldl max b.2 ∧ (p = b ∨ p ∈ h) := by
  intro h
  induction h with
  | nil => intro b; exact ⟨b, rfl, rfl, Or.inl rfl⟩
  | cons e t ih =>
    intro b
    by_cases hle : b.2 ≤ e.2
    · rcases ih e with ⟨p, hp, hp2, hp3⟩
      refine ⟨p, ?_, ?_, ?_⟩
      · simp only [List.foldl_cons, inner_step, if_pos hle]
        exact hp
      · simp only [List.map_cons, List.foldl_cons]
        rw [Nat.max_eq_right hle]
        exact hp2
      · rcases hp3 with rfl | hm
        · exact Or.inr (List.mem_cons_self _ _)
        · exact Or.inr (List.mem_cons_of_mem _ hm)
    · rcases ih b with ⟨p, hp, hp2, hp3⟩
      refine ⟨p, ?_, ?_, ?_⟩
      · simp only [List.foldl_cons, inner_step, if_neg hle]
        exact hp
      · simp only [List.map_cons, List.foldl_cons]
        rw [Nat.max_eq_left (le_of_not_le hle)]
        exact hp2
      · rcases hp3 with rfl | hm
        · exact Or.inl rfl
        · exact Or.inr (List.mem_cons_of_mem _ hm)

lemma inner_best_spec (h : Hist) (hne : h ≠ []) :
    ∃ p, inner_best h = some p ∧ p.2 = maxCount h ∧ p ∈ h := by
  cases h with
  | nil => exact absurd rfl hne
  | cons e t =>
    rcases inner_best_go t e with ⟨p, hp, hp2, hp3⟩
    refine ⟨p, ?_, ?_, ?_⟩
    · unfold inner_best
      simp only [List.foldl_cons, inner_step]
      exact hp
    · rw [hp2]
      unfold maxCount
      simp only [List.map_cons, List.foldl_cons]
      rw [foldl_max_eq _ (max 0 e.2), foldl_max_eq _ e.2]
      omega
    · rcases hp3 with rfl | hm
      · exact List.mem_cons_self _ _
      · exact List.mem_cons_of_mem _ hm

end Sivana

namespace Sivana

lemma select_best_go :
    ∀ (t : HistTable) (r0 : MatchResult), (∀ e ∈ t, e.2 ≠ []) →
      ∃ r, t.foldl sel_step (some r0) = some r ∧
        r.score = max r0.score (maxScore t) ∧
        ((r = r0 ∧ maxScore t ≤ r0.score) ∨
          (∃ pre e post, t = pre ++ e :: post ∧ r.song_id = e.1 ∧
            maxCount e.2 = r.score ∧ r0.score < r.score ∧
            ∀ e2 ∈ pre, maxCount e2.2 < r.score)) := by
  intro t
  induction t with
  | nil =>
    intro r0 _
    refine ⟨r0, rfl, ?_, Or.inl ⟨rfl, ?_⟩⟩
    · have : maxScore [] = 0 := rfl
      omega
    · have : maxScore [] = 0 := rfl
      omega
  | cons e t ih =>
    intro r0 hne
    rcases inner_best_spec e.2 (hne e (List.mem_cons_self _ _)) with ⟨p, hib, hp2, _⟩
    obtain ⟨δ, score⟩ := p
    simp only at hp2
    subst hp2
    have hne2 : ∀ e2 ∈ t, e2.2 ≠ [] := fun e2 he2 => hne e2 (List.mem_cons_of_mem _ he2)
    by_cases hlt : r0.score < maxCount e.2
    · have hstep : sel_step (some r0) e = some ⟨e.1, maxCount e.2, δ⟩ := by
        simp [sel_step, hib, hlt]
      rcases ih ⟨e.1, maxCount e.2, δ⟩ hne2 with ⟨r, hfold, hscore, hdisj⟩
      refine ⟨r, ?_, ?_, ?_⟩
      · simp only [List.foldl_cons, hstep]
        exact hfold
      · rw [maxScore_cons]
        simp only at hscore
        omega
      · right
        rcases hdisj with ⟨rfl, hle⟩ | ⟨pre, e2, post, hsplit, hsid, hmc, hlt2, hpre⟩
        · exact ⟨[], e, t, rfl, rfl, rfl, hlt, by intro x hx; simp at hx⟩
        · refine ⟨e :: pre, e2, post, by rw [hsplit, List.cons_append], hsid, hmc, ?_, ?_⟩
          · dsimp only at hlt2
            omega
          · intro x hx
            rcases List.mem_cons.mp hx with rfl | hx2
            · dsimp only at hlt2
              omega
            · exact hpre x hx2
    · have hstep : sel_step (some r0) e = some r0 := by
        simp [sel_step, hib, hlt]
      rcases ih r0 hne2 with ⟨r, hfold, hscore, hdisj⟩
      refine ⟨r, ?_, ?_, ?_⟩
      · simp only [List.foldl_cons, hstep]
        exact hfold
      · rw [maxScore_cons, hscore, ← Nat.max_assoc,
          Nat.max_eq_left (Nat.le_of_not_lt hlt)]
      · rcases hdisj with ⟨rfl, hle⟩ | ⟨pre, e2, post, hsplit, hsid, hmc, hlt2, hpre⟩
        · left
          refine ⟨rfl, ?_⟩
          rw [maxScore_cons]
          exact max_le (Nat.le_of_not_lt hlt) hle
        · right
          refine ⟨e :: pre, e2, post, by rw [hsplit, List.cons_append], hsid, hmc, hlt2, ?_⟩
          intro x hx
          rcases List.mem_cons.mp hx with rfl | hx2
          · omega
          · exact hpre x hx2

lemma select_best_spec (t : HistTable) (hne : ∀ e ∈ t, e.2 ≠ []) :
    (t = [] ∧ select_best t = none) ∨
    (∃ r, select_best t = some r ∧ r.score = maxScore t ∧
      ∃ pre e post, t = pre ++ e :: post ∧ r.song_id = e.1 ∧
        maxCount e.2 = r.score ∧ ∀ e2 ∈ pre, maxCount e2.2 < r.score) := by
  cases t with
  | nil => exact Or.inl ⟨rfl, rfl⟩
  | cons e t =>
    right
    rcases inner_best_spec e.2 (hne e (List.mem_cons_self _ _)) with ⟨p, hib, hp2, _⟩
    obtain ⟨δ, score⟩ := p
    simp only at hp2
    subst hp2
    have hne2 : ∀ e2 ∈ t, e2.2 ≠ [] := fun e2 he2 => hne e2 (List.mem_cons_of_mem _ he2)
    have hstep : sel_step none e = some ⟨e.1, maxCount e.2, δ⟩ := by
      simp [sel_step, hib]
    rcases select_best_go t ⟨e.1, maxCount e.2, δ⟩ hne2 with ⟨r, hfold, hscore, hdisj⟩
    refine ⟨r, ?_, ?_, ?_⟩
    · unfold select_best
      simp only [List.foldl_cons, hstep]
      exact hfold
    · rw [maxScore_cons]
      simp only at hscore
      omega
    · rcases hdisj with ⟨rfl, hle⟩ | ⟨pre, e2, post, hsplit, hsid, hmc, hlt2, hpre⟩
      · exact ⟨[], e, t, rfl, rfl, rfl, by intro x hx; simp at hx⟩
      · refine ⟨e :: pre, e2, post, by rw [hsplit, List.cons_append], hsid, hmc, ?_⟩
        intro x hx
        rcases List.mem_cons.mp hx with rfl | hx2
        · dsimp only at hlt2
          omega
        · exact hpre x hx2

/-! ### Histogram-table lemmas -/

lemma bump_inner_ne (h : Hist) (δ : Int) : bump_inner h δ ≠ [] := by
  cases h with
  | nil => simp [bump_inner]
  | cons e t =>
    obtain ⟨d, c⟩ := e
    unfold bump_inner
    split <;> simp

lemma bump_table_ne (t : HistTable) (sid : Nat) (δ : Int) :
    bump_table t sid δ ≠ [] := by
  cases t with
  | nil => simp [bump_table]
  | cons e r =>
    obtain ⟨s, h⟩ := e
    unfold bump_table
    split <;> simp

lemma bump_table_inner_ne :
    ∀ (t : HistTable), (∀ e ∈ t, e.2 ≠ []) → ∀ (sid : Nat) (δ : Int),
      ∀ e ∈ bump_table t sid δ, e.2 ≠ []
  | [], _, sid, δ, e, he => by
    simp only [bump_table, List.mem_singleton] at he
    rw [he]
    simp
  | (s, h) :: rest, hinv, sid, δ, e, he => by
    rw [bump_table] at he
    split at he
    · rcases List.mem_cons.mp he with rfl | h2
      · exact bump_inner_ne h δ
      · exact hinv e (List.mem_cons_of_mem _ h2)
    · rcases List.mem_cons.mp he with rfl | h2
      · exact hinv (s, h) (List.mem_cons_self _ _)
      · exact bump_table_inner_ne rest
          (fun x hx => hinv x (List.mem_cons_of_mem _ hx)) sid δ e h2

lemma fold_bump_inner_ne (q : Fingerprint) :
    ∀ (entries : List (Nat × Nat)) (t : HistTable), (∀ e ∈ t, e.2 ≠ []) →
      ∀ e ∈ entries.foldl
        (fun tbl e2 =>
          bump_table tbl e2.1 ((e2.2 : Int) - (q.anchor_time_idx : Int))) t,
        e.2 ≠ []
  | [], t, hinv, e, he => hinv e he
  | e2 :: rest, t, hinv, e, he => by
    rw [List.foldl_cons] at he
    exact fold_bump_inner_ne q rest _
      (bump_table_inner_ne t hinv e2.1 _) e he

lemma hist_step_inner_ne (lookup : Nat → Option (List (Nat × Nat)))
    (t : HistTable) (hinv : ∀ e ∈ t, e.2 ≠ []) (q : Fingerprint) :
    ∀ e ∈ hist_step lookup t q, e.2 ≠ [] := by
  unfold hist_step
  split
  · exact hinv
  · exact fold_bump_inner_ne q _ t hinv

lemma build_hist_inner_ne (lookup : Nat → Option (List (Nat × Nat))) :
    ∀ (qfps : List Fingerprint) (t : HistTable), (∀ e ∈ t, e.2 ≠ []) →
      ∀ e ∈ qfps.foldl (hist_step lookup) t, e.2 ≠ []
  | [], t, hinv, e, he => hinv e he
  | q :: rest, t, hinv, e, he => by
    rw [List.foldl_cons] at he
    exact build_hist_inner_ne lookup rest _
      (hist_step_inner_ne lookup t hinv q) e he

lemma fold_bump_nil_iff (q : Fingerprint) :
    ∀ (entries : List (Nat × Nat)) (t : HistTable),
      entries.foldl
        (fun tbl e2 =>
          bump_table tbl e2.1 ((e2.2 : Int) - (q.anchor_time_idx : Int))) t
        = [] ↔ (t = [] ∧ entries = [])
  | [], t => by simp
  | e2 :: rest, t => by
    rw [List.foldl_cons, fold_bump_nil_iff q rest]
    simp only [List.cons_ne_nil, and_false, iff_false, not_and]
    intro hb
    exact absurd hb (bump_table_ne t e2.1 _)

lemma hist_step_nil_iff (lookup : Nat → Option (List (Nat × Nat)))
    (t : HistTable) (q : Fingerprint) :
    hist_step lookup t q = [] ↔ (t = [] ∧ (lookup q.hash).getD [] = []) := by
  unfold hist_step
  rcases hl : lookup q.hash with _ | entries
  · simp
  · rw [fold_bump_nil_iff q entries t]
    simp

lemma build_hist_go_nil_iff (lookup : Nat → Option (List (Nat × Nat))) :
    ∀ (qfps : List Fingerprint) (t : HistTable),
      qfps.foldl (hist_step lookup) t = [] ↔
        (t = [] ∧ ∀ q ∈ qfps, (lookup q.hash).getD [] = [])
  | [], t => by simp
  | q :: rest, t => by
    rw [List.foldl_cons, build_hist_go_nil_iff lookup rest,
      hist_step_nil_iff lookup t q]
    constructor
    · rintro ⟨⟨h1, h2⟩, h3⟩
      refine ⟨h1, ?_⟩
      intro q2 hq2
      rcases List.mem_cons.mp hq2 with rfl | hq3
      · exact h2
      · exact h3 q2 hq3
    · rintro ⟨h1, h2⟩
      exact ⟨⟨h1, h2 q (List.mem_cons_self _ _)⟩,
        fun q2 hq2 => h2 q2 (List.mem_cons_of_mem _ hq2)⟩

lemma build_hist_nil_iff (lookup : Nat → Option (List (Nat × Nat)))
    (qfps : List Fingerprint) :
    build_hist lookup qfps = [] ↔ ∀ q ∈ qfps, (lookup q.hash).getD [] = [] := by
  unfold build_hist
  rw [build_hist_go_nil_iff]
  simp

lemma hist_step_suppress (lookup : Nat → Option (List (Nat × Nat)))
    (t : HistTable) (q : Fingerprint) :
    hist_step lookup t q = hist_step (fun h => some ((lookup h).getD [])) t q := by
  unfold hist_step
  rcases hl : lookup q.hash with _ | entries <;> simp [hl]

lemma build_hist_suppress (lookup : Nat → Option (List (Nat × Nat))) :
    ∀ (qfps : List Fingerprint) (t : HistTable),
      qfps.foldl (hist_step lookup) t =
        qfps.foldl (hist_step (fun h => some ((lookup h).getD []))) t
  | [], _ => rfl
  | q :: rest, t => by
    rw [List.foldl_cons, List.foldl_cons, hist_step_suppress,
      build_hist_suppress lookup rest]

lemma forall2_refl (t : HistTable) :
    List.Forall₂ (fun x y => x.1 = y.1 ∧ x.2.Perm y.2) t t := by
  induction t with
  | nil => exact List.Forall₂.nil
  | cons e r ih => exact List.Forall₂.cons ⟨rfl, List.Perm.refl _⟩ ih

lemma TablePerm_refl (t : HistTable) : TablePerm t t :=
  ⟨t, List.Perm.refl t, forall2_refl t⟩


/-! ### Matcher theorems -/

/-- C4: when the matcher answers.
With the hash map's iteration order made explicit (any permutation `reorder`
of the histogram table), the matcher returns `none` exactly when the query
fingerprint list is empty, no (successful) hash lookup hits any index entry,
or the best histogram score is below `S_min = 100`; any returned match has
score at least 100 (and equal to the best score); and a failed per-hash
lookup behaves exactly like a hash with no hits, so it is skipped rather
than aborting the query. -/
theorem C4_matcher_result (lookup : Nat → Option (List (Nat × Nat)))
    (reorder : HistTable → HistTable) (qfps : List Fingerprint)
    (hperm : TablePerm (reorder (build_hist lookup qfps))
      (build_hist lookup qfps)) :
    (query_db_and_match lookup reorder qfps = none ↔
      (qfps = [] ∨ (∀ q ∈ qfps, (lookup q.hash).getD [] = []) ∨
        maxScore (build_hist lookup qfps) < MIN_MATCH_SCORE)) ∧
    (∀ r, query_db_and_match lookup reorder qfps = some r →
      MIN_MATCH_SCORE ≤ r.score ∧
        r.score = maxScore (build_hist lookup qfps)) ∧
    build_hist lookup qfps =
      build_hist (fun h => some ((lookup h).getD [])) qfps := by
  have hsupp : build_hist lookup qfps =
      build_hist (fun h => some ((lookup h).getD [])) qfps :=
    build_hist_suppress lookup qfps []
  by_cases hq : qfps.isEmpty
  · have hq2 : qfps = [] := List.isEmpty_iff.mp hq
    have heq : query_db_and_match lookup reorder qfps = none := by
      unfold query_db_and_match
      rw [if_pos hq]
    rw [heq]
    exact ⟨by simp [hq2], by simp, hsupp⟩
  · have hq2 : qfps ≠ [] := fun h => hq (by simp [h])
    by_cases htbl : (build_hist lookup qfps).isEmpty
    · have htbl2 : build_hist lookup qfps = [] := List.isEmpty_iff.mp htbl
      have heq : query_db_and_match lookup reorder qfps = none := by
        unfold query_db_and_match
        rw [if_neg hq, if_pos htbl]
      rw [heq]
      refine ⟨⟨fun _ => Or.inr (Or.inl ((build_hist_nil_iff lookup qfps).mp htbl2)),
        fun _ => rfl⟩, by simp, hsupp⟩
    · have htbl2 : build_hist lookup qfps ≠ [] :=
        fun h => htbl (by rw [h]; rfl)
      have hinner : ∀ e ∈ build_hist lookup qfps, e.2 ≠ [] :=
        build_hist_inner_ne lookup qfps [] (by simp)
      have hinner2 : ∀ e ∈ reorder (build_hist lookup qfps), e.2 ≠ [] :=
        TablePerm_inner_ne hperm hinner
      have hne2 : reorder (build_hist lookup qfps) ≠ [] :=
        fun h => htbl2 ((TablePerm_nil_iff hperm).mp h)
      rcases select_best_spec (reorder (build_hist lookup qfps)) hinner2 with
        ⟨hnil, _⟩ | ⟨r, hsel, hscore, _⟩
      · exact absurd hnil hne2
      · have hscore2 : r.score = maxScore (build_hist lookup qfps) := by
          rw [hscore]
          exact TablePerm_maxScore hperm
        have heq : query_db_and_match lookup reorder qfps =
            if r.score < MIN_MATCH_SCORE then none else some r := by
          unfold query_db_and_match
          rw [if_neg hq, if_neg htbl, hsel]
        by_cases hth : r.score < MIN_MATCH_SCORE
        · rw [heq, if_pos hth]
          refine ⟨⟨fun _ => Or.inr (Or.inr (by rw [← hscore2]; exact hth)),
            fun _ => rfl⟩, by simp, hsupp⟩
        · rw [heq, if_neg hth]
          refine ⟨⟨fun hcontra => absurd hcontra (by simp), ?_⟩, ?_, hsupp⟩
          · rintro (h | h | h)
            · exact absurd h hq2
            · exact absurd ((build_hist_nil_iff _ _).mpr h) htbl2
            · rw [← hscore2] at h
              exact absurd h hth
          · intro r2 hr2
            have hr3 : r = r2 := Option.some.inj hr2
            rw [← hr3]
            exact ⟨Nat.le_of_not_lt hth, hscore2⟩

def c4_lookup : Nat → Option (List (Nat × Nat)) := fun h =>
  if h = 0 then some [(1, 5)] else none

def c4_qfps : List Fingerprint := List.replicate 100 ⟨0, 5⟩

/-- Witness for C4 at a store with one recording hit 100 times. -/
theorem C4_matcher_result_witness :
    (query_db_and_match c4_lookup id c4_qfps = none ↔
      (c4_qfps = [] ∨ (∀ q ∈ c4_qfps, (c4_lookup q.hash).getD [] = []) ∨
        maxScore (build_hist c4_lookup c4_qfps) < MIN_MATCH_SCORE)) ∧
    (∀ r, query_db_and_match c4_lookup id c4_qfps = some r →
      MIN_MATCH_SCORE ≤ r.score ∧
        r.score = maxScore (build_hist c4_lookup c4_qfps)) ∧
    build_hist c4_lookup c4_qfps =
      build_hist (fun h => some ((c4_lookup h).getD [])) c4_qfps :=
  C4_matcher_result c4_lookup id c4_qfps (TablePerm_refl _)

/-- C3 (amended): what the selection loop guarantees.
Any returned match attains the maximum best-bin count over all recordings,
and it is the first entry attaining that maximum in the hash map's iteration
order — not necessarily the recording with the lowest `R_id`. -/
theorem C3_matcher_selection_amended (lookup : Nat → Option (List (Nat × Nat)))
    (reorder : HistTable → HistTable) (qfps : List Fingerprint)
    (hperm : TablePerm (reorder (build_hist lookup qfps))
      (build_hist lookup qfps)) :
    ∀ r, query_db_and_match lookup reorder qfps = some r →
      r.score = maxScore (build_hist lookup qfps) ∧
      ∃ pre h post,
        reorder (build_hist lookup qfps) = pre ++ (r.song_id, h) :: post ∧
        maxCount h = r.score ∧ ∀ e ∈ pre, maxCount e.2 < r.score := by
  intro r hr
  by_cases hq : qfps.isEmpty
  · have heq : query_db_and_match lookup reorder qfps = none := by
      unfold query_db_and_match
      rw [if_pos hq]
    rw [heq] at hr
    exact absurd hr (by simp)
  · by_cases htbl : (build_hist lookup qfps).isEmpty
    · have heq : query_db_and_match lookup reorder qfps = none := by
        unfold query_db_and_match
        rw [if_neg hq, if_pos htbl]
      rw [heq] at hr
      exact absurd hr (by simp)
    · have htbl2 : build_hist lookup qfps ≠ [] :=
        fun h => htbl (by rw [h]; rfl)
      have hinner2 : ∀ e ∈ reorder (build_hist lookup qfps), e.2 ≠ [] :=
        TablePerm_inner_ne hperm
          (build_hist_inner_ne lookup qfps [] (by simp))
      have hne2 : reorder (build_hist lookup qfps) ≠ [] :=
        fun h => htbl2 ((TablePerm_nil_iff hperm).mp h)
      rcases select_best_spec (reorder (build_hist lookup qfps)) hinner2 with
        ⟨hnil, _⟩ | ⟨r0, hsel, hscore, pre, e, post, hsplit, hsid, hmc, hpre⟩
      · exact absurd hnil hne2
      · have heq : query_db_and_match lookup reorder qfps =
            if r0.score < MIN_MATCH_SCORE then none else some r0 := by
          unfold query_db_and_match
          rw [if_neg hq, if_neg htbl, hsel]
        rw [heq] at hr
        by_cases hth : r0.score < MIN_MATCH_SCORE
        · rw [if_pos hth] at hr
          exact absurd hr (by simp)
        · rw [if_neg hth] at hr
          have hr0 : r0 = r := Option.some.inj hr
          subst hr0
          refine ⟨by rw [hscore]; exact TablePerm_maxScore hperm,
            pre, e.2, post, ?_, hmc, hpre⟩
          rw [hsplit, hsid]

/-- The store and query of the tie counterexample: one hash hitting
recordings 1 and 2 at the same database anchor, queried 100 times. -/
def tie_lookup : Nat → Option (List (Nat × Nat)) := fun h =>
  if h = 0 then some [(1, 5), (2, 5)] else none

def tie_qfps : List Fingerprint := List.replicate 100 ⟨0, 5⟩

set_option maxRecDepth 8000

/-- Counterexample to C3 as stated: recordings 1 and 2 tie at the maximum
score 100, yet under the legal iteration order `List.reverse` the matcher
returns recording 2, not the lowest tied `R_id` 1 — and the identity order
returns recording 1, so the tie-break is iteration-order dependent, not
deterministic. -/
theorem C3_matcher_tie_counterexample :
    query_db_and_match tie_lookup List.reverse tie_qfps = some ⟨2, 100, 0⟩ ∧
    query_db_and_match tie_lookup id tie_qfps = some ⟨1, 100, 0⟩ ∧
    TablePerm (List.reverse (build_hist tie_lookup tie_qfps))
      (build_hist tie_lookup tie_qfps) ∧
    (1, [((0 : Int), 100)]) ∈ build_hist tie_lookup tie_qfps ∧
    maxCount [((0 : Int), 100)] = maxScore (build_hist tie_lookup tie_qfps) ∧
    (1 : Nat) < 2 := by
  refine ⟨by decide, by decide, ⟨_, List.reverse_perm _, forall2_refl _⟩,
    by decide, by decide, by decide⟩

/-- Witness for the amended C3 at the tie counterexample's input. -/
theorem C3_matcher_selection_amended_witness :
    (⟨2, 100, 0⟩ : MatchResult).score = maxScore (build_hist tie_lookup tie_qfps) ∧
    ∃ pre h post,
      List.reverse (build_hist tie_lookup tie_qfps)
          = pre ++ ((⟨2, 100, 0⟩ : MatchResult).song_id, h) :: post ∧
      maxCount h = (⟨2, 100, 0⟩ : MatchResult).score ∧
      ∀ e ∈ pre, maxCount e.2 < (⟨2, 100, 0⟩ : MatchResult).score :=
  C3_matcher_selection_amended tie_lookup List.reverse tie_qfps
    ⟨_, List.reverse_perm _, forall2_refl _⟩ ⟨2, 100, 0⟩ (by decide)

/-! ### Enrollment theorems -/

lemma upsert_song_fingerprints (st : DbState) (name : String)
    (path : Option String) :
    (upsert_song st name path).fingerprints = st.fingerprints := by
  cases path with
  | none => rfl
  | some p =>
    simp only [upsert_song]
    split <;> rfl

def demo_st0 : DbState := ⟨[], [], 0⟩

def demo_spectro : List Unit → List (List ℚ) := fun _ => [[5], [5]]

def demo_spectro_empty : List Unit → List (List ℚ) := fun _ => []

/-- C10: `enroll_song` returns an error — rather than enrolling an empty
fingerprint set — whenever the pipeline yields an empty spectrogram, an empty
peak list or an empty fingerprint list; in that case the song row has already
been upserted while the fingerprints table is untouched, so a recording with
zero fingerprints can exist in the store. -/
theorem C10_enroll_error_on_empty_pipeline {α : Type} (spectro : List α → List (List ℚ))
    (st : DbState) (name : String) (path : Option String) (samples : List α)
    (pp : Nat × Nat × ℚ) (hp : Nat × Nat × Nat × Nat)
    (hempty : spectro samples = [] ∨
      find_peaks (spectro samples) pp.1 pp.2.1 pp.2.2 = [] ∨
      create_hashes (find_peaks (spectro samples) pp.1 pp.2.1 pp.2.2)
        hp.1 hp.2.1 hp.2.2.1 hp.2.2.2 = []) :
    (∃ e, (enroll_song spectro st name path samples pp hp).2
        = Except.error e) ∧
    (enroll_song spectro st name path samples pp hp).1.songs
        = (upsert_song st name path).songs ∧
    (enroll_song spectro st name path samples pp hp).1.fingerprints
        = st.fingerprints := by
  unfold enroll_song
  rcases hres : resolve_song_id (upsert_song st name path) path with e | fid
  · exact ⟨⟨e, rfl⟩, rfl, upsert_song_fingerprints st name path⟩
  · dsimp only
    by_cases h1 : (spectro samples).isEmpty
    · rw [if_pos h1]
      exact ⟨⟨_, rfl⟩, rfl, upsert_song_fingerprints st name path⟩
    · have h1x : spectro samples ≠ [] := fun h => h1 (by rw [h]; rfl)
      by_cases h2 : (find_peaks (spectro samples) pp.1 pp.2.1 pp.2.2).isEmpty
      · rw [if_neg h1, if_pos h2]
        exact ⟨⟨_, rfl⟩, rfl, upsert_song_fingerprints st name path⟩
      · have h2x : find_peaks (spectro samples) pp.1 pp.2.1 pp.2.2 ≠ [] :=
          fun h => h2 (by rw [h]; rfl)
        have h3 : (create_hashes
            (find_peaks (spectro samples) pp.1 pp.2.1 pp.2.2)
            hp.1 hp.2.1 hp.2.2.1 hp.2.2.2).isEmpty := by
          rcases hempty with h | h | h
          · exact absurd h h1x
          · exact absurd h h2x
          · rw [h]; rfl
        rw [if_neg h1, if_neg h2, if_pos h3]
        exact ⟨⟨_, rfl⟩, rfl, upsert_song_fingerprints st name path⟩

/-- C2 (amended): when `enroll_song` returns an error the fingerprints table
is exactly as before the call (fingerprint ingestion is all-or-nothing inside
the transaction), but the songs-table upsert performed before fingerprinting
persists. -/
theorem C2_enroll_error_fingerprints_unchanged {α : Type} (spectro : List α → List (List ℚ))
    (st : DbState) (name : String) (path : Option String) (samples : List α)
    (pp : Nat × Nat × ℚ) (hp : Nat × Nat × Nat × Nat) (e : String)
    (herr : (enroll_song spectro st name path samples pp hp).2
        = Except.error e) :
    (enroll_song spectro st name path samples pp hp).1.fingerprints
        = st.fingerprints ∧
    (enroll_song spectro st name path samples pp hp).1.songs
        = (upsert_song st name path).songs := by
  unfold enroll_song at herr ⊢
  rcases hres : resolve_song_id (upsert_song st name path) path with e2 | fid
  · exact ⟨upsert_song_fingerprints st name path, rfl⟩
  · rw [hres] at herr
    dsimp only at herr ⊢
    by_cases h1 : (spectro samples).isEmpty
    · rw [if_pos h1]
      exact ⟨upsert_song_fingerprints st name path, rfl⟩
    · by_cases h2 : (find_peaks (spectro samples) pp.1 pp.2.1 pp.2.2).isEmpty
      · rw [if_neg h1, if_pos h2]
        exact ⟨upsert_song_fingerprints st name path, rfl⟩
      · by_cases h3 : (create_hashes
            (find_peaks (spectro samples) pp.1 pp.2.1 pp.2.2)
            hp.1 hp.2.1 hp.2.2.1 hp.2.2.2).isEmpty
        · rw [if_neg h1, if_neg h2, if_pos h3]
          exact ⟨upsert_song_fingerprints st name path, rfl⟩
        · rw [if_neg h1, if_neg h2, if_neg h3] at herr
          exact absurd herr (by simp)

/-- Counterexample to C2 as stated: on an empty store, an enrollment whose
audio yields no spectrogram returns an error, yet the store is not left as it
was — the upserted song row persists. -/
theorem C2_enroll_error_mutates_songs :
    (enroll_song demo_spectro_empty demo_st0 "song" (some "p") [()]
        (0, 0, 1) (1, 50, 200, 5)).2
      = Except.error "Failed to generate spectrogram" ∧
    (enroll_song demo_spectro_empty demo_st0 "song" (some "p") [()]
        (0, 0, 1) (1, 50, 200, 5)).1.songs
      = [⟨1, "song", some "p"⟩] ∧
    (enroll_song demo_spectro_empty demo_st0 "song" (some "p") [()]
        (0, 0, 1) (1, 50, 200, 5)).1 ≠ demo_st0 := by
  refine ⟨rfl, by decide, by decide⟩

/-- C1: the code violates delete-then-insert idempotence.  Enrolling the
same `(source_path, samples)` twice on a fresh store succeeds both times with
the same `R_id` 1, but the second call inserts the fingerprints again without
deleting the first call's rows: one row after the first call, two identical
rows after the second, so the fingerprint multiset for that `R_id` differs
from a single enrollment.  There is no `DELETE` in src/database.rs lines
150-160. -/
theorem C1_reenroll_duplicates_fingerprints :
    (enroll_song demo_spectro demo_st0 "song" (some "p") [()]
        (0, 0, 1) (1, 50, 200, 5)).2 = Except.ok 1 ∧
    (enroll_song demo_spectro demo_st0 "song" (some "p") [()]
        (0, 0, 1) (1, 50, 200, 5)).1.fingerprints = [⟨1, 1, 0⟩] ∧
    (enroll_song demo_spectro
        (enroll_song demo_spectro demo_st0 "song" (some "p") [()]
          (0, 0, 1) (1, 50, 200, 5)).1
        "song" (some "p") [()] (0, 0, 1) (1, 50, 200, 5)).2
      = Except.ok 1 ∧
    (enroll_song demo_spectro
        (enroll_song demo_spectro demo_st0 "song" (some "p") [()]
          (0, 0, 1) (1, 50, 200, 5)).1
        "song" (some "p") [()] (0, 0, 1) (1, 50, 200, 5)).1.fingerprints
      = [⟨1, 1, 0⟩, ⟨1, 1, 0⟩] := by
  refine ⟨rfl, by decide, rfl, by decide⟩

/-- Witness for C10 at a concrete input: a too-short recording ends with a
song row `(1, "song", "p")` in the store and zero fingerprint rows. -/
theorem C10_enroll_error_on_empty_pipeline_witness :
    ((∃ e, (enroll_song demo_spectro_empty demo_st0 "song" (some "p") [()]
        (0, 0, 1) (1, 50, 200, 5)).2 = Except.error e) ∧
    (enroll_song demo_spectro_empty demo_st0 "song" (some "p") [()]
        (0, 0, 1) (1, 50, 200, 5)).1.songs
      = (upsert_song demo_st0 "song" (some "p")).songs ∧
    (enroll_song demo_spectro_empty demo_st0 "song" (some "p") [()]
        (0, 0, 1) (1, 50, 200, 5)).1.fingerprints = demo_st0.fingerprints) ∧
    (upsert_song demo_st0 "song" (some "p")).songs = [⟨1, "song", some "p"⟩] ∧
    demo_st0.fingerprints = [] :=
  ⟨C10_enroll_error_on_empty_pipeline demo_spectro_empty demo_st0 "song"
    (some "p") [()] (0, 0, 1) (1, 50, 200, 5) (Or.inl rfl),
   by decide, rfl⟩

/-- Witness for the amended C2 at the same failing enrollment. -/
theorem C2_enroll_error_fingerprints_unchanged_witness :
    (enroll_song demo_spectro_empty demo_st0 "song" (some "p") [()]
        (0, 0, 1) (1, 50, 200, 5)).1.fingerprints = demo_st0.fingerprints ∧
    (enroll_song demo_spectro_empty demo_st0 "song" (some "p") [()]
        (0, 0, 1) (1, 50, 200, 5)).1.songs
      = (upsert_song demo_st0 "song" (some "p")).songs :=
  C2_enroll_error_fingerprints_unchanged demo_spectro_empty demo_st0 "song"
    (some "p") [()] (0, 0, 1) (1, 50, 200, 5)
    "Failed to generate spectrogram" rfl

end Sivana
